import Mathlib

/-!
Verification of the role-reconciliation core of the AGM-Role-Bot repository
(`roles.ts`), as a shallow embedding.

Modelling conventions:
- TypeScript strings become `List Char` (named `Str`); the composite cache
  key `` `${guildId}:${discordId}` `` is literal list concatenation with the
  colon character.
- The JavaScript `Map` becomes an association list with first-match lookup,
  in-place update and single-entry deletion.
- The Supabase client is an oracle (`Sink`) telling, per call, whether the
  upsert/delete reports an error; each embedded database function also
  returns the list of sink operations it issued (its observable I/O) and
  the error it surfaces to its caller (the rejection of its promise).
- The Discord REST collaborator is an oracle from (guild, cursor) to a page
  of members or an error; the unbounded `while` loop of `initialSync` is
  embedded with fuel, the `completed` flag recording whether the loop
  really exited (versus the fuel running out).
- `Promise.allSettled` over the per-member syncs is embedded as a
  sequential fold in list order; distinct members touch distinct cache
  keys, so the order is irrelevant to the properties proved here.
-/

namespace RoleBot

/-- Characters of a TypeScript string. -/
abbrev Str := List Char

/-- A role list (`string[]` in the source). -/
abbrev Roles := List Str

/-- Error values reported by the collaborators. -/
abbrev Err := Nat

/-- `user` field of an `APIGuildMember`. -/
structure User where
  id : Str
deriving DecidableEq

/-- An `APIGuildMember`: the `user` field is optional in the API. -/
structure Member where
  user : Option User
  roles : Roles
deriving DecidableEq

/-- The in-memory cache `Map<"guild:user", roles[]>`, as an association list. -/
abbrev Cache := List (Str × Roles)

/-- Oracle for the persistence collaborator: which upserts and deletes
report an error object in their result. -/
structure Sink where
  upsertErr : Str → Str → Roles → Option Err
  deleteErr : Str → Str → Option Err

/-- One observable operation issued to the persistence collaborator. -/
inductive SinkOp where
  | upsert (g u : Str) (roles : Roles)
  | del (g u : Str)
deriving DecidableEq

/-- The source's `PAGE_LIMIT` constant. -/
def PAGE_LIMIT : Nat := 1000

/-- The source's `cacheKey`: `` `${guildId}:${discordId}` ``. -/
def cacheKey (g u : Str) : Str := g ++ ':' :: u

/-- `Map.get`. -/
def cacheGet (c : Cache) (k : Str) : Option Roles :=
  match c with
  | [] => none
  | (k', v) :: t => if k' = k then some v else cacheGet t k

/-- `Map.set`: overwrite in place if the key is present, else append. -/
def cacheSet (c : Cache) (k : Str) (v : Roles) : Cache :=
  match c with
  | [] => [(k, v)]
  | (k', v') :: t => if k' = k then (k, v) :: t else (k', v') :: cacheSet t k v

/-- `Map.delete`: remove the (first) entry with the given key. -/
def cacheDelete (c : Cache) (k : Str) : Cache :=
  match c with
  | [] => []
  | (k', v') :: t => if k' = k then t else (k', v') :: cacheDelete t k

/-- `new Set(xs)`: deduplicated membership view of a list. -/
def jsSet (xs : List Str) : List Str := xs.dedup

/-- Size of `new Set(a).symmetricDifference(new Set(b))`: elements of one
set missing from the other, counted on both sides. -/
def symmDiffSize (a b : List Str) : Nat :=
  ((jsSet a).filter (fun x => decide (x ∉ jsSet b))).length +
    ((jsSet b).filter (fun x => decide (x ∉ jsSet a))).length

/-- `upsertUserRoles`: issue the upsert; when the sink reports an error the
function logs it and returns (the promise still resolves, so the surfaced
error is `none`); only on sink success is the cache updated. -/
def upsertUserRoles (s : Sink) (c : Cache) (g u : Str) (roles : Roles) :
    Cache × List SinkOp × Option Err :=
  match s.upsertErr g u roles with
  | some _ => (c, [SinkOp.upsert g u roles], none)
  | none => (cacheSet c (cacheKey g u) roles, [SinkOp.upsert g u roles], none)

/-- `removeUserRoles`: issue the delete; when the sink reports an error the
function logs it and returns (surfaced error `none`); only on sink success
is the cache entry removed. -/
def removeUserRoles (s : Sink) (c : Cache) (g u : Str) :
    Cache × List SinkOp × Option Err :=
  match s.deleteErr g u with
  | some _ => (c, [SinkOp.del g u], none)
  | none => (cacheDelete c (cacheKey g u), [SinkOp.del g u], none)

/-- `syncUserRoles`: look up the cache (`if (existing)` is array truthiness,
so a present-but-empty role list still counts as present), compare as sets
via the symmetric difference, and upsert only on a difference or a missing
entry. -/
def syncUserRoles (s : Sink) (c : Cache) (g u : Str) (roles : Roles) :
    Cache × List SinkOp × Option Err :=
  match cacheGet c (cacheKey g u) with
  | some existing =>
      if symmDiffSize existing roles = 0 then (c, [], none)
      else upsertUserRoles s c g u roles
  | none => upsertUserRoles s c g u roles

/-- JavaScript `s.startsWith(p)`. -/
def strStartsWith : Str → Str → Bool
  | _, [] => true
  | [], _ :: _ => false
  | c :: s, d :: p => decide (c = d) && strStartsWith s p

/-- JavaScript `s.split(':')`. -/
def splitOnColon : Str → List Str
  | [] => [[]]
  | c :: rest =>
    if c = ':' then [] :: splitOnColon rest
    else
      match splitOnColon rest with
      | [] => [[c]]
      | seg :: segs => (c :: seg) :: segs

/-- `key.split(':')[1]`: the member-id part of a cache key (every key fed to
this in the source has passed the `startsWith` filter, hence contains a
colon, so index 1 exists). -/
def extractId (k : Str) : Str := (splitOnColon k).getD 1 []

/-- The member filter of the sync fan-out, `member => member.user?.id`:
JavaScript truthiness drops a missing user and an empty id alike. -/
def memberSyncId (m : Member) : Option Str :=
  match m.user with
  | some u => if u.id = [] then none else some u.id
  | none => none

/-- `guildMembers.map(m => m.user?.id).filter(Boolean)`: the observed member
ids a prune run compares against (missing users and empty ids drop out). -/
def observedIds (members : List Member) : List Str :=
  ((members.map (fun m => m.user.map User.id)).filterMap id).filter
    (fun s => decide (s ≠ []))

/-- `[...rolesCache.keys()].filter(key => key.startsWith(guildId + ":"))`. -/
def cachedKeysForGroup (c : Cache) (g : Str) : List Str :=
  (c.map Prod.fst).filter (fun k => strStartsWith k (g ++ [':']))

/-- The cached keys of the group whose member id is not observed: the keys
the prune loop will delete. -/
def staleKeys (c : Cache) (g : Str) (ids : List Str) : List Str :=
  (cachedKeysForGroup c g).filter (fun k => !decide (extractId k ∈ ids))

/-- The prune `for` loop of `initialSync`: walk the snapshot of cached keys
and remove each one whose member id the fresh member set does not contain
(`Set.has` is membership). -/
def pruneLoop (s : Sink) (g : Str) (ids : List Str) :
    List Str → Cache → List SinkOp → Cache × List SinkOp
  | [], c, ops => (c, ops)
  | key :: rest, c, ops =>
    if decide (extractId key ∈ ids) then pruneLoop s g ids rest c ops
    else
      let r := removeUserRoles s c g (extractId key)
      pruneLoop s g ids rest r.1 (ops ++ r.2.1)

/-- The pruning phase of one group's reconciliation. -/
def prunePhase (s : Sink) (g : Str) (members : List Member) (c : Cache) :
    Cache × List SinkOp :=
  pruneLoop s g (observedIds members) (cachedKeysForGroup c g) c []

/-- The per-member sync fan-out of `initialSync` (`Promise.allSettled` over
`syncUserRoles`), embedded sequentially in list order: members with a
missing or empty user id are filtered out first. -/
def syncLoop (s : Sink) (g : Str) :
    List Member → Cache → List SinkOp → Cache × List SinkOp
  | [], c, ops => (c, ops)
  | m :: rest, c, ops =>
    match memberSyncId m with
    | none => syncLoop s g rest c ops
    | some uid =>
      let r := syncUserRoles s c g uid m.roles
      syncLoop s g rest r.1 (ops ++ r.2.1)

/-- The syncing phase of one group's reconciliation. -/
def syncPhase (s : Sink) (g : Str) (members : List Member) (c : Cache) :
    Cache × List SinkOp :=
  syncLoop s g members c []

/-- One group's reconciliation body: sync every fetched member, then prune
the keys that are no longer observed, on the post-sync cache. -/
def syncGroup (s : Sink) (g : Str) (members : List Member) (c : Cache) :
    Cache × List SinkOp :=
  let r1 := syncPhase s g members c
  let r2 := prunePhase s g members r1.1
  (r2.1, r1.2 ++ r2.2)

/-- The bulk-read collaborator (`rest.get` on the guild-members route):
from a guild and an optional `after` cursor to a page or an error. -/
abbrev FetchFn := Str → Option Str → Except Err (List Member)

/-- `fetchGuildMembersPage` adds the `after` query parameter only when the
cursor is truthy; an absent or empty cursor means a request with no cursor. -/
def effCursor (after : Option Str) : Option Str :=
  match after with
  | some u => if u = [] then none else some u
  | none => none

/-- `fetchGuildMembersPage guildId after`. -/
def fetchGuildMembersPage (fetch : FetchFn) (g : Str) (after : Option Str) :
    Except Err (List Member) :=
  fetch g (effCursor after)

/-- `guildMembers[guildMembers.length - 1].user?.id`, the cursor the loop
derives from the accumulated list (never called on an empty list in the
source: a full page has just been appended). -/
def lastCursor (acc : List Member) : Option Str :=
  match acc.getLast? with
  | some m => m.user.map User.id
  | none => none

/-- Result of a pager run: the accumulated members, the number of fetch
calls issued, the cursor passed to the collaborator on each call, and
whether the `while` loop actually exited (`false` means the fuel ran out
while the loop condition still held). -/
structure PagerOut where
  items : List Member
  calls : Nat
  cursors : List (Option Str)
  completed : Bool
deriving DecidableEq

/-- The `while (page.length === PAGE_LIMIT)` loop of `initialSync`,
embedded with fuel. -/
def pagerGo (fetch : FetchFn) (g : Str) :
    Nat → List Member → List Member → Nat → List (Option Str) →
      Except Err PagerOut
  | fuel, acc, page, calls, curs =>
    if page.length = PAGE_LIMIT then
      match fuel with
      | 0 => .ok ⟨acc, calls, curs, false⟩
      | fuel' + 1 =>
        let cursor := lastCursor acc
        match fetchGuildMembersPage fetch g cursor with
        | .error e => .error e
        | .ok page2 =>
          pagerGo fetch g fuel' (acc ++ page2) page2 (calls + 1)
            (curs ++ [effCursor cursor])
    else .ok ⟨acc, calls, curs, true⟩

/-- The whole member fetch of one group: the unconditional first page, then
the loop. -/
def fetchAllMembers (fetch : FetchFn) (g : Str) (fuel : Nat) :
    Except Err PagerOut :=
  match fetchGuildMembersPage fetch g none with
  | .error e => .error e
  | .ok page => pagerGo fetch g fuel page page 1 [none]

/-- One guild iteration of the `initialSync` loop. There is no try/catch in
the source, so an error state propagates unchanged past the remaining
guilds, and a rejected fetch turns the state into that error; `none` stands
for a run that never finishes (fuel exhausted). -/
def initialSyncStep (fetch : FetchFn) (s : Sink) (fuel : Nat) :
    Option (Except Err (Cache × List SinkOp)) → Str →
      Option (Except Err (Cache × List SinkOp))
  | none, _ => none
  | some (.error e), _ => some (.error e)
  | some (.ok (cache, ops)), g =>
    match fetchAllMembers fetch g fuel with
    | .error e => some (.error e)
    | .ok out =>
      if out.completed then
        let r := syncGroup s g out.items cache
        some (.ok (r.1, ops ++ r.2))
      else none

/-- `initialSync`: the sequential loop over configured guilds. -/
def initialSync (fetch : FetchFn) (s : Sink) (gids : List Str) (fuel : Nat)
    (c : Cache) : Option (Except Err (Cache × List SinkOp)) :=
  gids.foldl (initialSyncStep fetch s fuel) (some (.ok (c, [])))

/-- A row of the `user_roles` table as the load query sees it. The nullable
text columns are collapsed to `Str` (`null` and the empty string are both
falsy in the source's guard); the nullable array column keeps its option. -/
structure Row where
  guild : Str
  discordId : Str
  roles : Option Roles
deriving DecidableEq

/-- `fetchAllSupabaseRoles`: the query filters rows to the configured
guilds (`.in('guild_snowflake', guildIds)`); rows with a falsy guild or id
are skipped; a null role array becomes `[]`. -/
def fetchAllSupabaseRoles (gids : List Str) (rows : List Row) : Cache :=
  (rows.filter (fun r => decide (r.guild ∈ gids))).foldl
    (fun c r =>
      if r.guild ≠ [] ∧ r.discordId ≠ [] then
        cacheSet c (cacheKey r.guild r.discordId) (r.roles.getD [])
      else c)
    []

/-- The member list the round-trip scenario of the spec compares against: a
member for every loaded row of the group, carrying exactly the row's id. -/
def membersOfRows (rows : List Row) (g : Str) : List Member :=
  (rows.filter (fun r => decide (r.guild = g))).map
    (fun r => ⟨some ⟨r.discordId⟩, r.roles.getD []⟩)

/-- Precondition for pager termination: from the given cursor the
collaborator yields the listed full pages (each paired with the non-empty
user id of its last member, which the loop turns into the next cursor) and
finishes with a final short page. -/
def pagerChain (fetch : FetchFn) (g : Str) :
    Option Str → List (List Member × Str) → List Member → Prop
  | cur, [], q =>
    fetchGuildMembersPage fetch g cur = .ok q ∧ q.length ≠ PAGE_LIMIT
  | cur, (p, u) :: ps, q =>
    fetchGuildMembersPage fetch g cur = .ok p ∧ p.length = PAGE_LIMIT ∧
      (∃ m, p.getLast? = some m ∧ m.user = some ⟨u⟩) ∧ u ≠ [] ∧
      pagerChain fetch g (some u) ps q

/-! Concrete inputs used by the witnesses below. -/

/-- A concrete guild id. -/
def wG : Str := ['g']

/-- A second concrete guild id. -/
def wH : Str := ['h']

/-- Concrete member id 1. -/
def wU1 : Str := ['1']

/-- Concrete member id 2. -/
def wU2 : Str := ['2']

/-- Concrete member id 3. -/
def wU3 : Str := ['3']

/-- A concrete role id. -/
def wR1 : Roles := [['r']]

/-- A sink on which every operation succeeds. -/
def wSinkOk : Sink := ⟨fun _ _ _ => none, fun _ _ => none⟩

/-- A sink on which every operation reports error 1. -/
def wSinkBad : Sink := ⟨fun _ _ _ => some 1, fun _ _ => some 1⟩

/-- A concrete cache holding members 1, 2 and 3 of guild `wG`. -/
def wCache3 : Cache :=
  [(cacheKey wG wU1, []), (cacheKey wG wU2, []), (cacheKey wG wU3, [])]

/-- A member with the given id and no roles. -/
def wMem (u : Str) : Member := ⟨some ⟨u⟩, []⟩

/-- A fetch collaborator that fails on guild `wG` and returns a single
short page on any other guild. -/
def wFetchBad : FetchFn := fun g _ =>
  if g = wG then .error 7 else .ok [wMem wU1]

/-- A fetch collaborator returning one short page everywhere. -/
def wFetchOne : FetchFn := fun _ _ => .ok [wMem wU1]

/-- A sink whose upserts fail exactly for member id 1. -/
def wSinkFailU1 : Sink :=
  ⟨fun _ u _ => if u = wU1 then some 1 else none, fun _ _ => none⟩

/-- Two concrete rows of guild `wG`. -/
def wRows : List Row := [⟨wG, wU1, some wR1⟩, ⟨wG, wU2, none⟩]

/-- A full page whose last member is 1. -/
def wPage1 : List Member := List.replicate 999 (wMem wU3) ++ [wMem wU1]

/-- A full page whose last member is 2. -/
def wPage2 : List Member := List.replicate 999 (wMem wU3) ++ [wMem wU2]

/-- A short page of 37 members. -/
def wPage3 : List Member := List.replicate 37 (wMem wU3)

/-- A fetch collaborator serving the three pages above by cursor. -/
def wFetchPages : FetchFn := fun _ cur =>
  if cur = some wU1 then .ok wPage2
  else if cur = some wU2 then .ok wPage3
  else .ok wPage1

/-- A member carrying no user object. -/
def wMemNoUser : Member := ⟨none, []⟩

/-- A full page of members with no user object. -/
def wPageNoUser : List Member := List.replicate 1000 wMemNoUser

/-- A fetch collaborator that always serves the user-less full page. -/
def wFetchLoop : FetchFn := fun _ _ => .ok wPageNoUser

/-! Helper lemmas about the cache operations. -/

theorem cacheGet_cacheSet_self (c : Cache) (k : Str) (v : Roles) :
    cacheGet (cacheSet c k v) k = some v := by
  induction c with
  | nil => simp [cacheSet, cacheGet]
  | cons hd t ih =>
    obtain ⟨k', v'⟩ := hd
    by_cases h : k' = k
    · simp [cacheSet, cacheGet, h]
    · simp [cacheSet, cacheGet, h, ih]

theorem cacheGet_cacheSet_ne (c : Cache) (k k' : Str) (v : Roles)
    (h : k' ≠ k) : cacheGet (cacheSet c k v) k' = cacheGet c k' := by
  have h' : ¬ k = k' := fun hc => h hc.symm
  induction c with
  | nil => simp [cacheSet, cacheGet, h']
  | cons hd t ih =>
    obtain ⟨k'', v''⟩ := hd
    by_cases hk : k'' = k
    · subst hk
      simp [cacheSet, cacheGet, h']
    · by_cases hk' : k'' = k'
      · subst hk'
        simp [cacheSet, cacheGet, hk]
      · simp [cacheSet, cacheGet, hk, hk', ih]

theorem cacheGet_cacheDelete_ne (c : Cache) (k k' : Str)
    (h : k' ≠ k) : cacheGet (cacheDelete c k) k' = cacheGet c k' := by
  have h' : ¬ k = k' := fun hc => h hc.symm
  induction c with
  | nil => simp [cacheDelete]
  | cons hd t ih =>
    obtain ⟨k'', v''⟩ := hd
    by_cases hk : k'' = k
    · subst hk
      simp [cacheDelete, cacheGet, h']
    · by_cases hk' : k'' = k'
      · subst hk'
        simp [cacheDelete, cacheGet, hk]
      · simp [cacheDelete, cacheGet, hk, hk', ih]

/-! The comparator: the symmetric-difference size vanishes exactly when the
two role lists have the same members. -/

theorem symmDiffSize_eq_zero_iff (a b : List Str) :
    symmDiffSize a b = 0 ↔ ∀ x, x ∈ a ↔ x ∈ b := by
  unfold symmDiffSize
  rw [Nat.add_eq_zero_iff, List.length_eq_zero, List.length_eq_zero,
    List.filter_eq_nil_iff, List.filter_eq_nil_iff]
  simp only [jsSet, List.mem_dedup, decide_eq_true_eq, not_not]
  constructor
  · rintro ⟨h1, h2⟩ x
    exact ⟨fun hx => h1 x hx, fun hx => h2 x hx⟩
  · intro h
    exact ⟨fun x hx => (h x).1 hx, fun x hx => (h x).2 hx⟩

theorem symmDiffSize_self (a : List Str) : symmDiffSize a a = 0 :=
  (symmDiffSize_eq_zero_iff a a).2 (fun _ => Iff.rfl)

/-! Helper lemmas about keys as strings: splitting and the startsWith
filter recover the two components when neither contains a colon. -/

theorem strStartsWith_iff (s p : Str) :
    strStartsWith s p = true ↔ ∃ t, s = p ++ t := by
  induction p generalizing s with
  | nil => simp [strStartsWith]
  | cons d p ih =>
    cases s with
    | nil => simp [strStartsWith]
    | cons c s =>
      simp only [strStartsWith, Bool.and_eq_true, decide_eq_true_eq, ih,
        List.cons_append, List.cons.injEq]
      constructor
      · rintro ⟨rfl, t, rfl⟩
        exact ⟨t, rfl, rfl⟩
      · rintro ⟨t, rfl, rfl⟩
        exact ⟨rfl, t, rfl⟩

theorem splitOnColon_no_colon (u : Str) (h : ':' ∉ u) :
    splitOnColon u = [u] := by
  induction u with
  | nil => rfl
  | cons c rest ih =>
    have hc : ¬ c = ':' := fun hc => h (hc ▸ List.mem_cons_self c rest)
    have hr : ':' ∉ rest := fun hm => h (List.mem_cons_of_mem c hm)
    simp [splitOnColon, hc, ih hr]

theorem splitOnColon_append (g rest : Str) (h : ':' ∉ g) :
    splitOnColon (g ++ ':' :: rest) = g :: splitOnColon rest := by
  induction g with
  | nil => simp [splitOnColon]
  | cons c t ih =>
    have hc : ¬ c = ':' := fun hc => h (hc ▸ List.mem_cons_self c t)
    have ht : ':' ∉ t := fun hm => h (List.mem_cons_of_mem c hm)
    simp [splitOnColon, hc, ih ht]

theorem extractId_cacheKey (g u : Str) (hg : ':' ∉ g) (hu : ':' ∉ u) :
    extractId (cacheKey g u) = u := by
  simp [extractId, cacheKey, splitOnColon_append g u hg,
    splitOnColon_no_colon u hu, List.getD]

theorem append_colon_inj (g g' u u' : Str) (hg : ':' ∉ g) (hg' : ':' ∉ g') :
    g ++ ':' :: u = g' ++ ':' :: u' ↔ g = g' ∧ u = u' := by
  constructor
  · intro h
    have := congrArg splitOnColon h
    rw [splitOnColon_append g u hg, splitOnColon_append g' u' hg'] at this
    obtain ⟨h1, h2⟩ := List.cons.injEq _ _ _ _ ▸ this
    refine ⟨h1, ?_⟩
    have hlen := congrArg List.length h
    simp only [List.length_append, List.length_cons, h1] at hlen
    have hulen : u.length = u'.length := by omega
    have := List.append_inj_right h (by simp [h1])
    exact List.cons.inj this |>.2
  · rintro ⟨rfl, rfl⟩
    rfl

theorem cacheKey_inj (g g' u u' : Str) (hg : ':' ∉ g) (hg' : ':' ∉ g') :
    cacheKey g u = cacheKey g' u' ↔ g = g' ∧ u = u' :=
  append_colon_inj g g' u u' hg hg'

theorem cacheKey_right_inj (g u u' : Str) :
    cacheKey g u = cacheKey g u' ↔ u = u' := by
  constructor
  · intro h
    have := List.append_inj_right h rfl
    exact (List.cons.inj this).2
  · rintro rfl
    rfl

theorem strStartsWith_cacheKey (g g' u' : Str) (hg : ':' ∉ g)
    (hg' : ':' ∉ g') :
    strStartsWith (cacheKey g' u') (g ++ [':']) = true ↔ g' = g := by
  rw [strStartsWith_iff]
  constructor
  · rintro ⟨t, ht⟩
    have : cacheKey g' u' = cacheKey g t := by
      simpa [cacheKey, List.append_assoc] using ht
    exact ((cacheKey_inj g' g u' t hg' hg).1 this).1
  · rintro rfl
    exact ⟨u', by simp [cacheKey, List.append_assoc]⟩

/-! Helper lemmas about the prune loop. -/

theorem cacheGet_isSome_iff (c : Cache) (k : Str) :
    (cacheGet c k).isSome = true ↔ k ∈ c.map Prod.fst := by
  induction c with
  | nil => simp [cacheGet]
  | cons hd t ih =>
    obtain ⟨k', v'⟩ := hd
    by_cases h : k' = k
    · subst h
      simp [cacheGet]
    · have h' : ¬ k = k' := fun hc => h hc.symm
      simp only [cacheGet, h, if_false, List.map_cons, List.mem_cons, h',
        false_or]
      exact ih

theorem removeUserRoles_ops (s : Sink) (c : Cache) (g u : Str) :
    (removeUserRoles s c g u).2.1 = [SinkOp.del g u] := by
  unfold removeUserRoles
  cases s.deleteErr g u <;> rfl

theorem removeUserRoles_get_ne (s : Sink) (c : Cache) (g u k' : Str)
    (h : k' ≠ cacheKey g u) :
    cacheGet (removeUserRoles s c g u).1 k' = cacheGet c k' := by
  unfold removeUserRoles
  cases s.deleteErr g u with
  | some e => rfl
  | none => exact cacheGet_cacheDelete_ne c (cacheKey g u) k' h

theorem pruneLoop_cons_mem (s : Sink) (g : Str) (ids : List Str)
    (key : Str) (rest : List Str) (c : Cache) (ops : List SinkOp)
    (h : extractId key ∈ ids) :
    pruneLoop s g ids (key :: rest) c ops = pruneLoop s g ids rest c ops := by
  simp [pruneLoop, h]

theorem pruneLoop_cons_not_mem (s : Sink) (g : Str) (ids : List Str)
    (key : Str) (rest : List Str) (c : Cache) (ops : List SinkOp)
    (h : extractId key ∉ ids) :
    pruneLoop s g ids (key :: rest) c ops =
      pruneLoop s g ids rest (removeUserRoles s c g (extractId key)).1
        (ops ++ (removeUserRoles s c g (extractId key)).2.1) := by
  simp [pruneLoop, h]

theorem pruneLoop_ops (s : Sink) (g : Str) (ids : List Str) :
    ∀ (keys : List Str) (c : Cache) (ops : List SinkOp),
      (pruneLoop s g ids keys c ops).2 =
        ops ++ (keys.filter (fun k => !decide (extractId k ∈ ids))).map
          (fun k => SinkOp.del g (extractId k)) := by
  intro keys
  induction keys with
  | nil => intro c ops; simp [pruneLoop]
  | cons key rest ih =>
    intro c ops
    by_cases h : extractId key ∈ ids
    · rw [pruneLoop_cons_mem s g ids key rest c ops h, ih]
      simp [h]
    · rw [pruneLoop_cons_not_mem s g ids key rest c ops h, ih]
      simp [h, removeUserRoles_ops]

theorem pruneLoop_get (s : Sink) (g : Str) (ids : List Str) :
    ∀ (keys : List Str) (c : Cache) (ops : List SinkOp) (k' : Str),
      (∀ k ∈ keys, extractId k ∈ ids ∨ cacheKey g (extractId k) ≠ k') →
      cacheGet (pruneLoop s g ids keys c ops).1 k' = cacheGet c k' := by
  intro keys
  induction keys with
  | nil => intro c ops k' _; simp [pruneLoop]
  | cons key rest ih =>
    intro c ops k' hk
    by_cases h : extractId key ∈ ids
    · rw [pruneLoop_cons_mem s g ids key rest c ops h]
      exact ih c ops k' (fun k hm => hk k (List.mem_cons_of_mem key hm))
    · have hne : cacheKey g (extractId key) ≠ k' :=
        ((hk key (List.mem_cons_self key rest)).resolve_left h)
      rw [pruneLoop_cons_not_mem s g ids key rest c ops h,
        ih _ _ k' (fun k hm => hk k (List.mem_cons_of_mem key hm))]
      exact removeUserRoles_get_ne s c g (extractId key) k'
        (fun hc => hne hc.symm)

theorem pruneLoop_skip_all (s : Sink) (g : Str) (ids : List Str) :
    ∀ (keys : List Str) (c : Cache) (ops : List SinkOp),
      (∀ k ∈ keys, extractId k ∈ ids) →
      pruneLoop s g ids keys c ops = (c, ops) := by
  intro keys
  induction keys with
  | nil => intro c ops _; rfl
  | cons key rest ih =>
    intro c ops hk
    have h := hk key (List.mem_cons_self key rest)
    rw [pruneLoop_cons_mem s g ids key rest c ops h]
    exact ih c ops (fun k hm => hk k (List.mem_cons_of_mem key hm))

theorem cachedKeysForGroup_decomp (c : Cache) (g : Str) (hg : ':' ∉ g)
    (hc : ∀ kv ∈ c, ∃ g' u', kv.1 = cacheKey g' u' ∧ ':' ∉ g' ∧ ':' ∉ u') :
    ∀ k ∈ cachedKeysForGroup c g,
      ∃ u', ':' ∉ u' ∧ k = cacheKey g u' ∧ extractId k = u' := by
  intro k hk
  simp only [cachedKeysForGroup, List.mem_filter, List.mem_map] at hk
  obtain ⟨⟨kv, hkv, rfl⟩, hpre⟩ := hk
  obtain ⟨g', u', h1, hg', hu'⟩ := hc kv hkv
  rw [h1] at hpre ⊢
  have hgg : g' = g := (strStartsWith_cacheKey g g' u' hg hg').1 hpre
  subst hgg
  exact ⟨u', hu', rfl, extractId_cacheKey g' u' hg' hu'⟩

theorem cacheKey_mem_keysForGroup (c : Cache) (g u : Str) (hg : ':' ∉ g)
    (hmem : cacheKey g u ∈ c.map Prod.fst) :
    cacheKey g u ∈ cachedKeysForGroup c g := by
  simp only [cachedKeysForGroup, List.mem_filter]
  exact ⟨hmem, (strStartsWith_cacheKey g g u hg hg).2 rfl⟩

/-- C1: pruning deletes exactly the stale keys. For every group, the delete
operations issued by the pruning phase are exactly those for cached keys of
that group whose member id is not among the freshly fetched member ids; all
other cached entries (same group but observed, or a different group) are
left untouched; and a group whose fetch returned zero members has a delete
issued for every previously-cached member of that group. -/
theorem pruning_removes_exactly_stale (s : Sink) (g : Str) (c : Cache)
    (hg : ':' ∉ g)
    (hc : ∀ kv ∈ c, ∃ g' u', kv.1 = cacheKey g' u' ∧ ':' ∉ g' ∧ ':' ∉ u') :
    (∀ (members : List Member) (u : Str), ':' ∉ u →
      (SinkOp.del g u ∈ (prunePhase s g members c).2 ↔
        cacheKey g u ∈ c.map Prod.fst ∧ u ∉ observedIds members))
    ∧ (∀ (members : List Member) (g' u' : Str), ':' ∉ g' → ':' ∉ u' →
        (u' ∈ observedIds members ∨ g' ≠ g) →
        cacheGet (prunePhase s g members c).1 (cacheKey g' u') =
          cacheGet c (cacheKey g' u'))
    ∧ (∀ u : Str, ':' ∉ u → cacheKey g u ∈ c.map Prod.fst →
        SinkOp.del g u ∈ (prunePhase s g [] c).2) := by
  have decomp := cachedKeysForGroup_decomp c g hg hc
  have hmem_iff : ∀ (members : List Member) (u : Str), ':' ∉ u →
      (SinkOp.del g u ∈ (prunePhase s g members c).2 ↔
        cacheKey g u ∈ c.map Prod.fst ∧ u ∉ observedIds members) := by
    intro members u hu
    unfold prunePhase
    rw [pruneLoop_ops, List.nil_append]
    constructor
    · intro hin
      rw [List.mem_map] at hin
      obtain ⟨k, hk', hdel⟩ := hin
      rw [List.mem_filter] at hk'
      obtain ⟨hk, hnotin⟩ := hk'
      have hext : extractId k = u := (SinkOp.del.inj hdel).2
      simp only [Bool.not_eq_eq_eq_not, Bool.not_true,
        decide_eq_false_iff_not] at hnotin
      obtain ⟨u'', hu'', hkeq, hext'⟩ := decomp k hk
      rw [hext'] at hext
      subst hext
      rw [hext'] at hnotin
      rw [hkeq] at hk
      rw [cachedKeysForGroup, List.mem_filter] at hk
      exact ⟨hk.1, hnotin⟩
    · rintro ⟨hmem, hnotin⟩
      rw [List.mem_map]
      refine ⟨cacheKey g u, ?_, ?_⟩
      · rw [List.mem_filter]
        refine ⟨cacheKey_mem_keysForGroup c g u hg hmem, ?_⟩
        rw [extractId_cacheKey g u hg hu]
        simp [hnotin]
      · rw [extractId_cacheKey g u hg hu]
  refine ⟨hmem_iff, ?_, ?_⟩
  · intro members g' u' hg' hu' hobs
    unfold prunePhase
    apply pruneLoop_get
    intro k hk
    obtain ⟨u'', hu'', hkeq, hext'⟩ := decomp k hk
    by_cases hin : extractId k ∈ observedIds members
    · exact Or.inl hin
    · refine Or.inr (fun hctr => ?_)
      rw [hext'] at hctr hin
      have := (cacheKey_inj g g' u'' u' hg hg').1 hctr
      obtain ⟨hgeq, hueq⟩ := this
      rcases hobs with hobs | hobs
      · exact hin (hueq ▸ hobs)
      · exact hobs hgeq.symm
  · intro u hu hmem
    exact (hmem_iff [] u hu).2 ⟨hmem, by simp [observedIds]⟩

/-- Witness for C1: with cached keys g:1, g:2, g:3 for guild g and fresh
members 1 and 3, a delete is issued for key g:2 and the entry g:1 is left
untouched. -/
theorem pruning_removes_exactly_stale_witness :
    SinkOp.del wG wU2 ∈ (prunePhase wSinkOk wG [wMem wU1, wMem wU3] wCache3).2
    ∧ cacheGet (prunePhase wSinkOk wG [wMem wU1, wMem wU3] wCache3).1
        (cacheKey wG wU1) = cacheGet wCache3 (cacheKey wG wU1) := by
  have hc : ∀ kv ∈ wCache3,
      ∃ g' u', kv.1 = cacheKey g' u' ∧ ':' ∉ g' ∧ ':' ∉ u' := by
    intro kv hkv
    rw [wCache3] at hkv
    simp only [List.mem_cons, List.not_mem_nil, or_false] at hkv
    rcases hkv with h | h | h
    · exact ⟨wG, wU1, by rw [h], by decide, by decide⟩
    · exact ⟨wG, wU2, by rw [h], by decide, by decide⟩
    · exact ⟨wG, wU3, by rw [h], by decide, by decide⟩
  have h := pruning_removes_exactly_stale wSinkOk wG wCache3 (by decide) hc
  constructor
  · exact (h.1 [wMem wU1, wMem wU3] wU2 (by decide)).2 ⟨by decide, by decide⟩
  · exact h.2.1 [wMem wU1, wMem wU3] wG wU1 (by decide) (by decide)
      (Or.inl (by decide))

theorem upsertUserRoles_ops (s : Sink) (c : Cache) (g u : Str) (r : Roles) :
    (upsertUserRoles s c g u r).2.1 = [SinkOp.upsert g u r] := by
  unfold upsertUserRoles
  cases s.upsertErr g u r <;> rfl

/-- C2: the change comparator. When no cache entry exists for the key, a
sink upsert is always issued (even for an empty observed role list); when a
cache entry `A` exists (empty or not), an upsert is issued if and only if
the symmetric difference of `A` and the observed list `B`, as sets ignoring
order and duplicates, is non-empty. -/
theorem comparator_reports_symmdiff (s : Sink) (c : Cache) (g u : Str)
    (B : Roles) :
    (cacheGet c (cacheKey g u) = none →
      (syncUserRoles s c g u B).2.1 = [SinkOp.upsert g u B])
    ∧ (∀ A : Roles, cacheGet c (cacheKey g u) = some A →
        (((syncUserRoles s c g u B).2.1 ≠ [] ↔ ¬ (∀ x, x ∈ A ↔ x ∈ B))
          ∧ ((syncUserRoles s c g u B).2.1 ≠ [] →
              (syncUserRoles s c g u B).2.1 = [SinkOp.upsert g u B]))) := by
  constructor
  · intro hnone
    have hstep : syncUserRoles s c g u B = upsertUserRoles s c g u B := by
      unfold syncUserRoles
      rw [hnone]
    rw [hstep]
    exact upsertUserRoles_ops s c g u B
  · intro A hsome
    have hstep : syncUserRoles s c g u B =
        if symmDiffSize A B = 0 then (c, [], none)
        else upsertUserRoles s c g u B := by
      unfold syncUserRoles
      rw [hsome]
    by_cases h : symmDiffSize A B = 0
    · rw [hstep, if_pos h]
      refine ⟨⟨fun hne => absurd rfl hne, fun hcon => ?_⟩,
        fun hne => absurd rfl hne⟩
      exact absurd ((symmDiffSize_eq_zero_iff A B).1 h) hcon
    · rw [hstep, if_neg h, upsertUserRoles_ops]
      refine ⟨⟨fun _ hforall => h ((symmDiffSize_eq_zero_iff A B).2 hforall),
        fun _ => by simp⟩, fun _ => rfl⟩

/-- Witness for C2: on an empty cache an upsert is issued even for an empty
observed role list. -/
theorem comparator_reports_symmdiff_witness :
    (syncUserRoles wSinkOk [] wG wU1 []).2.1 = [SinkOp.upsert wG wU1 []] :=
  (comparator_reports_symmdiff wSinkOk [] wG wU1 []).1 rfl

/-- Counterexample to C3: a sink on which every upsert and delete fails,
yet `syncUserRoles` and `removeUserRoles` surface no error to their caller
(the surfaced-error component is `none`): the failure is logged and
swallowed, and the caller observes a silent success. -/
theorem sink_error_not_surfaced_cex :
    wSinkBad.upsertErr wG wU1 wR1 = some 1
    ∧ wSinkBad.deleteErr wG wU1 = some 1
    ∧ (syncUserRoles wSinkBad [] wG wU1 wR1).2.2 = none
    ∧ (removeUserRoles wSinkBad [] wG wU1).2.2 = none := by
  exact ⟨rfl, rfl, rfl, rfl⟩

/-- C3 (amended): for every sink upsert or delete that fails, the error is
logged and swallowed: the call completes with no surfaced error (a silent
success from the caller's point of view), and the cache is left untouched. -/
theorem sink_error_swallowed (s : Sink) (c : Cache) (g u : Str) (r : Roles)
    (e : Err) :
    (s.upsertErr g u r = some e →
      upsertUserRoles s c g u r = (c, [SinkOp.upsert g u r], none))
    ∧ (s.deleteErr g u = some e →
        removeUserRoles s c g u = (c, [SinkOp.del g u], none))
    ∧ (cacheGet c (cacheKey g u) = none → s.upsertErr g u r = some e →
        syncUserRoles s c g u r = (c, [SinkOp.upsert g u r], none)) := by
  refine ⟨fun h => ?_, fun h => ?_, fun hnone h => ?_⟩
  · unfold upsertUserRoles
    rw [h]
  · unfold removeUserRoles
    rw [h]
  · have hstep : syncUserRoles s c g u r = upsertUserRoles s c g u r := by
      unfold syncUserRoles
      rw [hnone]
    rw [hstep]
    unfold upsertUserRoles
    rw [h]

/-- Witness for C3 (amended): the failing sink leaves the cache untouched
and surfaces nothing. -/
theorem sink_error_swallowed_witness :
    upsertUserRoles wSinkBad wCache3 wG wU1 wR1 =
      (wCache3, [SinkOp.upsert wG wU1 wR1], none) :=
  (sink_error_swallowed wSinkBad wCache3 wG wU1 wR1 1).1 rfl

/-- C6: mutations are write-through with failure atomicity. The cache
update is a function of the sink outcome: when the sink reports an error
the cache is exactly as before the call, and only when the sink confirms
success is the cache entry set to the observed roles (for an upsert) or
removed (for a delete). -/
theorem write_through_atomicity (s : Sink) (c : Cache) (g u : Str)
    (r : Roles) :
    ((∃ e, s.upsertErr g u r = some e) → (upsertUserRoles s c g u r).1 = c)
    ∧ (s.upsertErr g u r = none →
        (upsertUserRoles s c g u r).1 = cacheSet c (cacheKey g u) r)
    ∧ ((∃ e, s.deleteErr g u = some e) → (removeUserRoles s c g u).1 = c)
    ∧ (s.deleteErr g u = none →
        (removeUserRoles s c g u).1 = cacheDelete c (cacheKey g u)) := by
  refine ⟨fun ⟨e, h⟩ => ?_, fun h => ?_, fun ⟨e, h⟩ => ?_, fun h => ?_⟩ <;>
    · first
      | (unfold upsertUserRoles; rw [h])
      | (unfold removeUserRoles; rw [h])

/-- Witness for C6: on the failing sink the cache is untouched; on the
succeeding sink the entry is written. -/
theorem write_through_atomicity_witness :
    (upsertUserRoles wSinkBad wCache3 wG wU1 wR1).1 = wCache3
    ∧ (upsertUserRoles wSinkOk wCache3 wG wU1 wR1).1 =
        cacheSet wCache3 (cacheKey wG wU1) wR1 :=
  ⟨(write_through_atomicity wSinkBad wCache3 wG wU1 wR1).1 ⟨1, rfl⟩,
    (write_through_atomicity wSinkOk wCache3 wG wU1 wR1).2.1 rfl⟩

/-- C7: `syncUserRoles` is idempotent in sink writes. When the upsert for
the observed roles succeeds, two successive calls with the same observed
roles issue at most one sink operation in total, and the second call issues
none at all. -/
theorem syncUserRoles_idempotent (s : Sink) (c : Cache) (g u : Str)
    (r : Roles) (hok : s.upsertErr g u r = none) :
    ((syncUserRoles s (syncUserRoles s c g u r).1 g u r).2.1 = [])
    ∧ ((syncUserRoles s c g u r).2.1 ++
        (syncUserRoles s (syncUserRoles s c g u r).1 g u r).2.1).length ≤ 1 := by
  have hup : upsertUserRoles s c g u r =
      (cacheSet c (cacheKey g u) r, [SinkOp.upsert g u r], none) := by
    unfold upsertUserRoles
    rw [hok]
  have hsecond : ∀ c' : Cache, cacheGet c' (cacheKey g u) = some r →
      syncUserRoles s c' g u r = (c', [], none) := by
    intro c' hc'
    have hstep : syncUserRoles s c' g u r =
        if symmDiffSize r r = 0 then (c', [], none)
        else upsertUserRoles s c' g u r := by
      unfold syncUserRoles
      rw [hc']
    rw [hstep, if_pos (symmDiffSize_self r)]
  rcases hA : cacheGet c (cacheKey g u) with _ | A
  · have hstep : syncUserRoles s c g u r = upsertUserRoles s c g u r := by
      unfold syncUserRoles
      rw [hA]
    rw [hstep, hup]
    rw [hsecond _ (cacheGet_cacheSet_self c (cacheKey g u) r)]
    exact ⟨rfl, by simp⟩
  · have hstep : syncUserRoles s c g u r =
        if symmDiffSize A r = 0 then (c, [], none)
        else upsertUserRoles s c g u r := by
      unfold syncUserRoles
      rw [hA]
    by_cases h : symmDiffSize A r = 0
    · rw [hstep, if_pos h]
      constructor
      · show (syncUserRoles s c g u r).2.1 = []
        rw [hstep, if_pos h]
      · show (([] : List SinkOp) ++ (syncUserRoles s c g u r).2.1).length ≤ 1
        rw [hstep, if_pos h]
        simp
    · rw [hstep, if_neg h, hup]
      rw [hsecond _ (cacheGet_cacheSet_self c (cacheKey g u) r)]
      exact ⟨rfl, by simp⟩

/-- Witness for C7: after a first successful sync on an empty cache, the
second identical call issues no sink operation. -/
theorem syncUserRoles_idempotent_witness :
    wSinkOk.upsertErr wG wU1 wR1 = none
    ∧ (syncUserRoles wSinkOk (syncUserRoles wSinkOk [] wG wU1 wR1).1
        wG wU1 wR1).2.1 = [] :=
  ⟨rfl, (syncUserRoles_idempotent wSinkOk [] wG wU1 wR1 rfl).1⟩

/-! Helper lemmas for failure isolation: a member's sync touches no cache
key other than its own. -/

theorem upsertUserRoles_get_ne (s : Sink) (c : Cache) (g u : Str)
    (r : Roles) (k : Str) (h : k ≠ cacheKey g u) :
    cacheGet (upsertUserRoles s c g u r).1 k = cacheGet c k := by
  unfold upsertUserRoles
  rcases hh : s.upsertErr g u r with _ | e
  · exact cacheGet_cacheSet_ne c (cacheKey g u) k r h
  · rfl

theorem syncUserRoles_get_ne (s : Sink) (c : Cache) (g u : Str) (r : Roles)
    (k : Str) (h : k ≠ cacheKey g u) :
    cacheGet (syncUserRoles s c g u r).1 k = cacheGet c k := by
  unfold syncUserRoles
  rcases hA : cacheGet c (cacheKey g u) with _ | A
  · exact upsertUserRoles_get_ne s c g u r k h
  · show cacheGet
        (if symmDiffSize A r = 0 then (c, ([] : List SinkOp), (none : Option Err))
          else upsertUserRoles s c g u r).1 k = cacheGet c k
    by_cases hz : symmDiffSize A r = 0
    · rw [if_pos hz]
    · rw [if_neg hz]
      exact upsertUserRoles_get_ne s c g u r k h

theorem upsertUserRoles_agree (s1 s2 : Sink) (g u : Str) (r : Roles)
    (c1 c2 : Cache) (keyX : Str)
    (hagree : ∀ k, k ≠ keyX → cacheGet c1 k = cacheGet c2 k)
    (hsame : s1.upsertErr g u r = s2.upsertErr g u r) :
    ∀ k, k ≠ keyX →
      cacheGet (upsertUserRoles s1 c1 g u r).1 k =
        cacheGet (upsertUserRoles s2 c2 g u r).1 k := by
  intro k hk
  rcases hh : s1.upsertErr g u r with _ | e
  · have hh2 : s2.upsertErr g u r = none := hsame.symm.trans hh
    have e1 : (upsertUserRoles s1 c1 g u r).1 = cacheSet c1 (cacheKey g u) r := by
      unfold upsertUserRoles
      rw [hh]
    have e2 : (upsertUserRoles s2 c2 g u r).1 = cacheSet c2 (cacheKey g u) r := by
      unfold upsertUserRoles
      rw [hh2]
    rw [e1, e2]
    by_cases hkey : k = cacheKey g u
    · subst hkey
      rw [cacheGet_cacheSet_self, cacheGet_cacheSet_self]
    · rw [cacheGet_cacheSet_ne c1 (cacheKey g u) k r hkey,
        cacheGet_cacheSet_ne c2 (cacheKey g u) k r hkey]
      exact hagree k hk
  · have hh2 : s2.upsertErr g u r = some e := hsame.symm.trans hh
    have e1 : (upsertUserRoles s1 c1 g u r).1 = c1 := by
      unfold upsertUserRoles
      rw [hh]
    have e2 : (upsertUserRoles s2 c2 g u r).1 = c2 := by
      unfold upsertUserRoles
      rw [hh2]
    rw [e1, e2]
    exact hagree k hk

theorem syncUserRoles_agree (s1 s2 : Sink) (g u : Str) (r : Roles)
    (c1 c2 : Cache) (keyX : Str)
    (hagree : ∀ k, k ≠ keyX → cacheGet c1 k = cacheGet c2 k)
    (hsame : s1.upsertErr g u r = s2.upsertErr g u r)
    (hne : cacheKey g u ≠ keyX) :
    ∀ k, k ≠ keyX →
      cacheGet (syncUserRoles s1 c1 g u r).1 k =
        cacheGet (syncUserRoles s2 c2 g u r).1 k := by
  intro k hk
  have hlook : cacheGet c1 (cacheKey g u) = cacheGet c2 (cacheKey g u) :=
    hagree (cacheKey g u) hne
  rcases hA : cacheGet c2 (cacheKey g u) with _ | A
  · have hA1 : cacheGet c1 (cacheKey g u) = none := hlook.trans hA
    have e1 : syncUserRoles s1 c1 g u r = upsertUserRoles s1 c1 g u r := by
      unfold syncUserRoles
      rw [hA1]
    have e2 : syncUserRoles s2 c2 g u r = upsertUserRoles s2 c2 g u r := by
      unfold syncUserRoles
      rw [hA]
    rw [e1, e2]
    exact upsertUserRoles_agree s1 s2 g u r c1 c2 keyX hagree hsame k hk
  · have hA1 : cacheGet c1 (cacheKey g u) = some A := hlook.trans hA
    have e1 : syncUserRoles s1 c1 g u r =
        if symmDiffSize A r = 0 then (c1, [], none)
        else upsertUserRoles s1 c1 g u r := by
      unfold syncUserRoles
      rw [hA1]
    have e2 : syncUserRoles s2 c2 g u r =
        if symmDiffSize A r = 0 then (c2, [], none)
        else upsertUserRoles s2 c2 g u r := by
      unfold syncUserRoles
      rw [hA]
    by_cases hz : symmDiffSize A r = 0
    · rw [e1, e2, if_pos hz, if_pos hz]
      exact hagree k hk
    · rw [e1, e2, if_neg hz, if_neg hz]
      exact upsertUserRoles_agree s1 s2 g u r c1 c2 keyX hagree hsame k hk

theorem syncLoop_noninterfere (s1 s2 : Sink) (g uidX : Str)
    (hup : ∀ u r, u ≠ uidX → s1.upsertErr g u r = s2.upsertErr g u r) :
    ∀ (members : List Member) (c1 c2 : Cache) (ops1 ops2 : List SinkOp),
      (∀ k, k ≠ cacheKey g uidX → cacheGet c1 k = cacheGet c2 k) →
      ∀ k, k ≠ cacheKey g uidX →
        cacheGet (syncLoop s1 g members c1 ops1).1 k =
          cacheGet (syncLoop s2 g members c2 ops2).1 k := by
  intro members
  induction members with
  | nil => intro c1 c2 ops1 ops2 hagree k hk; exact hagree k hk
  | cons m rest ih =>
    intro c1 c2 ops1 ops2 hagree k hk
    rcases hid : memberSyncId m with _ | uid
    · show cacheGet (syncLoop s1 g (m :: rest) c1 ops1).1 k = _
      unfold syncLoop
      rw [hid]
      exact ih c1 c2 ops1 ops2 hagree k hk
    · have e1 : syncLoop s1 g (m :: rest) c1 ops1 =
          syncLoop s1 g rest (syncUserRoles s1 c1 g uid m.roles).1
            (ops1 ++ (syncUserRoles s1 c1 g uid m.roles).2.1) := by
        simp only [syncLoop, hid]
      have e2 : syncLoop s2 g (m :: rest) c2 ops2 =
          syncLoop s2 g rest (syncUserRoles s2 c2 g uid m.roles).1
            (ops2 ++ (syncUserRoles s2 c2 g uid m.roles).2.1) := by
        simp only [syncLoop, hid]
      rw [e1, e2]
      by_cases hx : uid = uidX
      · subst hx
        refine ih _ _ _ _ (fun k' hk' => ?_) k hk
        rw [syncUserRoles_get_ne s1 c1 g uid m.roles k' hk',
          syncUserRoles_get_ne s2 c2 g uid m.roles k' hk']
        exact hagree k' hk'
      · have hkeyne : cacheKey g uid ≠ cacheKey g uidX :=
          fun hc => hx ((cacheKey_right_inj g uid uidX).1 hc)
        refine ih _ _ _ _ (fun k' hk' => ?_) k hk
        exact syncUserRoles_agree s1 s2 g uid m.roles c1 c2
          (cacheKey g uidX) hagree (hup uid m.roles hx) hkeyne k' hk'

/-- C8: per-member sync failures are isolated inside a group. Changing the
sink's upsert behaviour for one member id `uidX` (for example making its
writes fail) does not change the post-sync cache at any other member's key;
and for any sink whatsoever, the group's operation trace is the sync-phase
trace followed by a delete for every key that is stale in the post-sync
cache — pruning executes after all sync outcomes, whatever failed during
syncing. -/
theorem member_failure_isolated (s1 s2 : Sink) (g uidX : Str)
    (members : List Member) (c : Cache)
    (hup : ∀ u r, u ≠ uidX → s1.upsertErr g u r = s2.upsertErr g u r) :
    (∀ k, k ≠ cacheKey g uidX →
      cacheGet (syncPhase s1 g members c).1 k =
        cacheGet (syncPhase s2 g members c).1 k)
    ∧ (∀ s : Sink, (syncGroup s g members c).2 =
        (syncPhase s g members c).2 ++
          (staleKeys (syncPhase s g members c).1 g (observedIds members)).map
            (fun k => SinkOp.del g (extractId k))) := by
  constructor
  · intro k hk
    exact syncLoop_noninterfere s1 s2 g uidX hup members c c [] []
      (fun _ _ => rfl) k hk
  · intro s
    show (syncPhase s g members c).2 ++
        (prunePhase s g members (syncPhase s g members c).1).2 = _
    rw [prunePhase, pruneLoop_ops, List.nil_append, staleKeys]

/-- Witness for C8: making member 1's upserts fail does not change the
post-sync cache at member 2's key. -/
theorem member_failure_isolated_witness :
    cacheGet (syncPhase wSinkOk wG [wMem wU1, wMem wU2] []).1
        (cacheKey wG wU2) =
      cacheGet (syncPhase wSinkFailU1 wG [wMem wU1, wMem wU2] []).1
        (cacheKey wG wU2) :=
  (member_failure_isolated wSinkOk wSinkFailU1 wG wU1 [wMem wU1, wMem wU2] []
    (fun u r h => by simp [wSinkOk, wSinkFailU1, h])).1
    (cacheKey wG wU2) (by decide)

/-! Helper lemmas for the load round-trip: every key the load seeds comes
from a row with truthy guild and id. -/

theorem cacheSet_keys (c : Cache) (key : Str) (v : Roles) (k : Str)
    (h : k ∈ (cacheSet c key v).map Prod.fst) :
    k = key ∨ k ∈ c.map Prod.fst := by
  induction c with
  | nil =>
    simp only [cacheSet, List.map_cons, List.map_nil, List.mem_singleton]
      at h
    exact Or.inl h
  | cons hd t ih =>
    obtain ⟨k', v'⟩ := hd
    by_cases hk : k' = key
    · subst hk
      simp only [cacheSet, if_true, List.map_cons, List.mem_cons] at h
      rcases h with h | h
      · exact Or.inl h
      · exact Or.inr (List.mem_cons_of_mem _ h)
    · simp only [cacheSet, hk, if_false, List.map_cons, List.mem_cons] at h
      rcases h with h | h
      · exact Or.inr (h ▸ List.mem_cons_self k' _)
      · rcases ih h with h' | h'
        · exact Or.inl h'
        · exact Or.inr (List.mem_cons_of_mem _ h')

theorem seedRows_keys :
    ∀ (rs : List Row) (c0 : Cache) (k : Str),
      k ∈ (rs.foldl
        (fun c r =>
          if r.guild ≠ [] ∧ r.discordId ≠ [] then
            cacheSet c (cacheKey r.guild r.discordId) (r.roles.getD [])
          else c) c0).map Prod.fst →
      k ∈ c0.map Prod.fst ∨
        ∃ r ∈ rs, r.guild ≠ [] ∧ r.discordId ≠ [] ∧
          k = cacheKey r.guild r.discordId := by
  intro rs
  induction rs with
  | nil => intro c0 k h; exact Or.inl h
  | cons r rest ih =>
    intro c0 k h
    rw [List.foldl_cons] at h
    rcases ih _ k h with h' | ⟨r', hr', hg', hd', hk'⟩
    · by_cases hcond : r.guild ≠ [] ∧ r.discordId ≠ []
      · rw [if_pos hcond] at h'
        rcases cacheSet_keys c0 _ _ k h' with h'' | h''
        · exact Or.inr ⟨r, List.mem_cons_self r rest, hcond.1, hcond.2, h''⟩
        · exact Or.inl h''
      · rw [if_neg hcond] at h'
        exact Or.inl h'
    · exact Or.inr ⟨r', List.mem_cons_of_mem r hr', hg', hd', hk'⟩

theorem fetchAllSupabaseRoles_keys (gids : List Str) (rows : List Row)
    (k : Str) (h : k ∈ (fetchAllSupabaseRoles gids rows).map Prod.fst) :
    ∃ r ∈ rows, r.guild ≠ [] ∧ r.discordId ≠ [] ∧
      k = cacheKey r.guild r.discordId := by
  unfold fetchAllSupabaseRoles at h
  rcases seedRows_keys _ [] k h with h' | ⟨r, hr, hg, hd, hk⟩
  · simp at h'
  · exact ⟨r, (List.mem_filter.1 hr).1, hg, hd, hk⟩

theorem rowId_observed (rows : List Row) (g : Str) (r : Row)
    (hr : r ∈ rows) (hguild : r.guild = g) (hid : r.discordId ≠ []) :
    r.discordId ∈ observedIds (membersOfRows rows g) := by
  have hm : (⟨some ⟨r.discordId⟩, r.roles.getD []⟩ : Member) ∈
      membersOfRows rows g := by
    unfold membersOfRows
    exact List.mem_map.2 ⟨r, List.mem_filter.2 ⟨hr, by simp [hguild]⟩, rfl⟩
  have h1 : some r.discordId ∈
      (membersOfRows rows g).map (fun m => m.user.map User.id) :=
    List.mem_map.2 ⟨_, hm, rfl⟩
  have h2 : r.discordId ∈
      ((membersOfRows rows g).map (fun m => m.user.map User.id)).filterMap
        id :=
    List.mem_filterMap.2 ⟨some r.discordId, h1, rfl⟩
  exact List.mem_filter.2 ⟨h2, by simp [hid]⟩

/-- C9: round-trip of load and staleness. Seeding the cache from a set of
rows and then computing staleness for a group against the member list made
of exactly those rows' member ids yields an empty stale set: the prune pass
issues no delete and leaves the cache unchanged. -/
theorem load_staleness_roundtrip (gids : List Str) (rows : List Row)
    (g : Str) (s : Sink)
    (hrows : ∀ r ∈ rows, ':' ∉ r.guild ∧ ':' ∉ r.discordId)
    (hg : ':' ∉ g) :
    staleKeys (fetchAllSupabaseRoles gids rows) g
        (observedIds (membersOfRows rows g)) = []
    ∧ prunePhase s g (membersOfRows rows g) (fetchAllSupabaseRoles gids rows)
        = (fetchAllSupabaseRoles gids rows, []) := by
  have hall : ∀ k ∈ cachedKeysForGroup (fetchAllSupabaseRoles gids rows) g,
      extractId k ∈ observedIds (membersOfRows rows g) := by
    intro k hk
    rw [cachedKeysForGroup, List.mem_filter] at hk
    obtain ⟨hkeys, hpre⟩ := hk
    obtain ⟨r, hr, hgne, hdne, hkeq⟩ :=
      fetchAllSupabaseRoles_keys gids rows k hkeys
    obtain ⟨hgc, hdc⟩ := hrows r hr
    rw [hkeq] at hpre ⊢
    have hgg : r.guild = g := (strStartsWith_cacheKey g r.guild r.discordId
      hg hgc).1 hpre
    rw [extractId_cacheKey r.guild r.discordId hgc hdc]
    exact rowId_observed rows g r hr hgg hdne
  constructor
  · rw [staleKeys, List.filter_eq_nil_iff]
    intro k hk
    simp [hall k hk]
  · rw [prunePhase]
    exact pruneLoop_skip_all s g _ _ _ _ (fun k hk => hall k hk)

/-- Witness for C9: seeding from two concrete rows of guild g and pruning
against exactly their ids removes nothing. -/
theorem load_staleness_roundtrip_witness :
    prunePhase wSinkOk wG (membersOfRows wRows wG)
        (fetchAllSupabaseRoles [wG] wRows) =
      (fetchAllSupabaseRoles [wG] wRows, []) := by
  have hrows : ∀ r ∈ wRows, ':' ∉ r.guild ∧ ':' ∉ r.discordId := by
    intro r hr
    rw [wRows] at hr
    simp only [List.mem_cons, List.not_mem_nil, or_false] at hr
    rcases hr with h | h <;> rw [h] <;> exact ⟨by decide, by decide⟩
  exact (load_staleness_roundtrip [wG] wRows wG wSinkOk hrows (by decide)).2

/-! C4: a fetch failure has no try/catch around it in `initialSync`. -/

theorem initialSyncStep_error (fetch : FetchFn) (s : Sink) (fuel : Nat)
    (e : Err) (g : Str) :
    initialSyncStep fetch s fuel (some (.error e)) g = some (.error e) := rfl

theorem foldl_error_absorb (fetch : FetchFn) (s : Sink) (fuel : Nat)
    (e : Err) :
    ∀ l : List Str,
      l.foldl (initialSyncStep fetch s fuel) (some (.error e)) =
        some (.error e) := by
  intro l
  induction l with
  | nil => rfl
  | cons g t ih =>
    rw [List.foldl_cons, initialSyncStep_error, ih]

/-- Counterexample to C4: a collaborator that fails the bulk fetch of guild
g but would successfully serve guild h. Reconciling h alone succeeds and
issues its upsert, yet reconciling the list [g, h] stops at g's fetch
error: `initialSync` returns the error and guild h is never reconciled. -/
theorem fetch_error_aborts_all_cex :
    initialSync wFetchBad wSinkOk [wH] 1 [] =
      some (.ok ([(cacheKey wH wU1, [])], [SinkOp.upsert wH wU1 []]))
    ∧ initialSync wFetchBad wSinkOk [wG, wH] 1 [] = some (.error 7) :=
  ⟨rfl, rfl⟩

/-- C4 (amended): a bulk-fetch error while reconciling one group aborts the
whole reconciliation. If the groups before `g` complete and `g`'s first
fetch call fails, `initialSync` returns that error and none of the groups
after `g` is reconciled. -/
theorem fetch_error_aborts_reconciliation (fetch : FetchFn) (s : Sink)
    (gs1 : List Str) (g : Str) (gs2 : List Str) (fuel : Nat) (c : Cache)
    (e : Err) (c1 : Cache) (ops1 : List SinkOp)
    (hfe : fetch g none = .error e)
    (hok : initialSync fetch s gs1 fuel c = some (.ok (c1, ops1))) :
    initialSync fetch s (gs1 ++ g :: gs2) fuel c = some (.error e) := by
  have hpage : fetchGuildMembersPage fetch g none = .error e := hfe
  have hfam : fetchAllMembers fetch g fuel = .error e := by
    unfold fetchAllMembers
    rw [hpage]
  have hstep : initialSyncStep fetch s fuel (some (.ok (c1, ops1))) g =
      some (.error e) := by
    simp only [initialSyncStep, hfam]
  rw [initialSync] at hok ⊢
  rw [List.foldl_append, hok, List.foldl_cons, hstep,
    foldl_error_absorb]

/-- Witness for C4 (amended): the concrete failing collaborator aborts a
two-guild reconciliation whose first guild's fetch fails. -/
theorem fetch_error_aborts_reconciliation_witness :
    initialSync wFetchBad wSinkOk ([] ++ wG :: [wH]) 1 [] =
      some (.error 7) :=
  fetch_error_aborts_reconciliation wFetchBad wSinkOk [] wG [wH] 1 [] 7
    [] [] rfl rfl

/-! Helper lemmas about the pager loop. -/

theorem getLast?_append_singleton {α : Type} (l : List α) (a : α) :
    (l ++ [a]).getLast? = some a := by
  rw [List.getLast?_append_cons]
  rfl

theorem getLast?_replicate_succ {α : Type} (n : Nat) (x : α) :
    (List.replicate (n + 1) x).getLast? = some x := by
  induction n with
  | zero => rfl
  | succ n ih =>
    rw [List.replicate_succ, List.replicate_succ, List.getLast?_cons_cons,
      ← List.replicate_succ]
    exact ih

theorem pagerGo_exit (fetch : FetchFn) (g : Str) (fuel : Nat)
    (acc page : List Member) (calls : Nat) (curs : List (Option Str))
    (h : page.length ≠ PAGE_LIMIT) :
    pagerGo fetch g fuel acc page calls curs = .ok ⟨acc, calls, curs, true⟩ := by
  unfold pagerGo
  rw [if_neg h]

theorem pagerGo_zero (fetch : FetchFn) (g : Str) (acc page : List Member)
    (calls : Nat) (curs : List (Option Str))
    (h : page.length = PAGE_LIMIT) :
    pagerGo fetch g 0 acc page calls curs = .ok ⟨acc, calls, curs, false⟩ := by
  unfold pagerGo
  rw [if_pos h]

theorem pagerGo_step_ok (fetch : FetchFn) (g : Str) (fuel' : Nat)
    (acc page page2 : List Member) (calls : Nat) (curs : List (Option Str))
    (h : page.length = PAGE_LIMIT)
    (hf : fetchGuildMembersPage fetch g (lastCursor acc) = .ok page2) :
    pagerGo fetch g (fuel' + 1) acc page calls curs =
      pagerGo fetch g fuel' (acc ++ page2) page2 (calls + 1)
        (curs ++ [effCursor (lastCursor acc)]) := by
  conv_lhs => rw [pagerGo]
  rw [if_pos h]
  show (match fetchGuildMembersPage fetch g (lastCursor acc) with
    | Except.error e => (Except.error e : Except Err PagerOut)
    | Except.ok p2 =>
      pagerGo fetch g fuel' (acc ++ p2) p2 (calls + 1)
        (curs ++ [effCursor (lastCursor acc)])) = _
  rw [hf]

theorem pagerGo_step_err (fetch : FetchFn) (g : Str) (fuel' : Nat)
    (acc page : List Member) (calls : Nat) (curs : List (Option Str))
    (e : Err) (h : page.length = PAGE_LIMIT)
    (hf : fetchGuildMembersPage fetch g (lastCursor acc) = .error e) :
    pagerGo fetch g (fuel' + 1) acc page calls curs = .error e := by
  conv_lhs => rw [pagerGo]
  rw [if_pos h]
  show (match fetchGuildMembersPage fetch g (lastCursor acc) with
    | Except.error e => (Except.error e : Except Err PagerOut)
    | Except.ok p2 =>
      pagerGo fetch g fuel' (acc ++ p2) p2 (calls + 1)
        (curs ++ [effCursor (lastCursor acc)])) = _
  rw [hf]

theorem lastCursor_of_getLast (acc : List Member) (m : Member) (u : Str)
    (hacc : acc.getLast? = some m) (hm : m.user = some ⟨u⟩) :
    lastCursor acc = some u := by
  unfold lastCursor
  rw [hacc]
  show Option.map User.id m.user = some u
  rw [hm]
  rfl

theorem effCursor_some (u : Str) (hu : u ≠ []) :
    effCursor (some u) = some u := by
  unfold effCursor
  show (if u = [] then none else some u) = some u
  rw [if_neg hu]

theorem pagerGo_chain (fetch : FetchFn) (g : Str) :
    ∀ (ps : List (List Member × Str)) (q acc page : List Member)
      (calls : Nat) (curs : List (Option Str)) (fuel : Nat) (m : Member)
      (u : Str),
      page.length = PAGE_LIMIT →
      acc.getLast? = some m → m.user = some ⟨u⟩ → u ≠ [] →
      pagerChain fetch g (some u) ps q →
      ps.length + 1 ≤ fuel →
      pagerGo fetch g fuel acc page calls curs =
        .ok ⟨acc ++ (ps.map Prod.fst).flatten ++ q, calls + (ps.length + 1),
          curs ++ some u :: ps.map (fun pr => (some pr.2 : Option Str)),
          true⟩ := by
  intro ps
  induction ps with
  | nil =>
    intro q acc page calls curs fuel m u hpage hacc hm hu hch hfuel
    obtain ⟨hq, hqs⟩ := hch
    obtain ⟨fuel', rfl⟩ : ∃ f, fuel = f + 1 := by
      cases fuel with
      | zero => omega
      | succ f => exact ⟨f, rfl⟩
    have hcur : lastCursor acc = some u := lastCursor_of_getLast acc m u hacc hm
    rw [pagerGo_step_ok fetch g fuel' acc page q calls curs hpage
      (by rw [hcur]; exact hq)]
    rw [pagerGo_exit fetch g fuel' (acc ++ q) q (calls + 1)
      (curs ++ [effCursor (lastCursor acc)]) hqs]
    rw [hcur, effCursor_some u hu]
    simp

  | cons pr ps' ih =>
    obtain ⟨p2, u2⟩ := pr
    intro q acc page calls curs fuel m u hpage hacc hm hu hch hfuel
    obtain ⟨hp2, hl2, ⟨m2, hg2, hm2⟩, hu2, hch'⟩ := hch
    obtain ⟨fuel', rfl⟩ : ∃ f, fuel = f + 1 := by
      cases fuel with
      | zero => simp [List.length_cons] at hfuel
      | succ f => exact ⟨f, rfl⟩
    have hcur : lastCursor acc = some u := lastCursor_of_getLast acc m u hacc hm
    have hp2ne : p2 ≠ [] := by
      intro hnil
      rw [hnil] at hl2
      simp [PAGE_LIMIT] at hl2
    have hfuel' : ps'.length + 1 ≤ fuel' := by
      simp only [List.length_cons] at hfuel
      omega
    rw [pagerGo_step_ok fetch g fuel' acc page p2 calls curs hpage
      (by rw [hcur]; exact hp2)]
    rw [ih q (acc ++ p2) p2 (calls + 1) (curs ++ [effCursor (lastCursor acc)])
      fuel' m2 u2 hl2
      (by rw [List.getLast?_append_of_ne_nil acc hp2ne]; exact hg2)
      hm2 hu2 hch' hfuel']
    rw [hcur, effCursor_some u hu]
    refine congrArg Except.ok ?_
    simp only [List.map_cons, List.flatten_cons, List.length_cons,
      PagerOut.mk.injEq]
    refine ⟨by simp [List.append_assoc], by omega, by simp, trivial⟩

theorem fetchAllMembers_chain (fetch : FetchFn) (g : Str)
    (ps : List (List Member × Str)) (q : List Member) (fuel : Nat)
    (hch : pagerChain fetch g none ps q) (hfuel : ps.length ≤ fuel) :
    fetchAllMembers fetch g fuel =
      .ok ⟨(ps.map Prod.fst).flatten ++ q, ps.length + 1,
        none :: ps.map (fun pr => (some pr.2 : Option Str)), true⟩ := by
  cases ps with
  | nil =>
    obtain ⟨hq, hqs⟩ := hch
    unfold fetchAllMembers
    rw [show fetchGuildMembersPage fetch g none = .ok q from hq]
    show pagerGo fetch g fuel q q 1 [none] = _
    rw [pagerGo_exit fetch g fuel q q 1 [none] hqs]
    simp

  | cons pr ps' =>
    obtain ⟨p1, u1⟩ := pr
    obtain ⟨hp1, hl1, ⟨m1, hg1, hm1⟩, hu1, hch'⟩ := hch
    unfold fetchAllMembers
    rw [show fetchGuildMembersPage fetch g none = .ok p1 from hp1]
    show pagerGo fetch g fuel p1 p1 1 [none] = _
    rw [pagerGo_chain fetch g ps' q p1 p1 1 [none] fuel m1 u1 hl1 hg1 hm1
      hu1 hch' (by simpa using hfuel)]
    refine congrArg Except.ok ?_
    simp only [List.map_cons, List.flatten_cons, List.length_cons,
      PagerOut.mk.injEq]
    exact ⟨by simp [List.append_assoc], by omega, by simp, trivial⟩

/-- C5: pagination fetches page after page, passing as cursor the id of the
last member of the accumulated list, and stops exactly when a page comes
back shorter than the 1000-member bound. Given pages of sizes 1000, 1000
and 37 it issues exactly 3 fetch calls with cursors none, then the first
page's last id, then the second page's last id, and returns all 2037
members in order; given a first page shorter than 1000 it issues exactly
one call. -/
theorem pagination_counts :
    (∀ (fetch : FetchFn) (g : Str) (p1 p2 p3 : List Member) (m1 m2 : Member)
        (u1 u2 : Str) (f : Nat),
      fetch g none = .ok p1 → p1.length = PAGE_LIMIT →
      p1.getLast? = some m1 → m1.user = some ⟨u1⟩ → u1 ≠ [] →
      fetch g (some u1) = .ok p2 → p2.length = PAGE_LIMIT →
      p2.getLast? = some m2 → m2.user = some ⟨u2⟩ → u2 ≠ [] →
      fetch g (some u2) = .ok p3 → p3.length = 37 →
      fetchAllMembers fetch g (f + 2) =
        .ok ⟨p1 ++ p2 ++ p3, 3, [none, some u1, some u2], true⟩
      ∧ (p1 ++ p2 ++ p3).length = 2037)
    ∧ (∀ (fetch : FetchFn) (g : Str) (q : List Member) (f : Nat),
        fetch g none = .ok q → q.length < PAGE_LIMIT →
        fetchAllMembers fetch g f = .ok ⟨q, 1, [none], true⟩) := by
  constructor
  · intro fetch g p1 p2 p3 m1 m2 u1 u2 f hp1 hl1 hg1 hm1 hu1 hp2 hl2 hg2
      hm2 hu2 hp3 hl3
    have hch : pagerChain fetch g none [(p1, u1), (p2, u2)] p3 := by
      refine ⟨hp1, hl1, ⟨m1, hg1, hm1⟩, hu1, ?_⟩
      refine ⟨?_, hl2, ⟨m2, hg2, hm2⟩, hu2, ?_, ?_⟩
      · show fetch g (effCursor (some u1)) = .ok p2
        rw [effCursor_some u1 hu1]
        exact hp2
      · show fetch g (effCursor (some u2)) = .ok p3
        rw [effCursor_some u2 hu2]
        exact hp3
      · rw [hl3]
        decide
    have h := fetchAllMembers_chain fetch g [(p1, u1), (p2, u2)] p3 (f + 2)
      hch (by simp)
    constructor
    · rw [h]
      refine congrArg Except.ok ?_
      simp [List.append_assoc]
    · simp [hl1, hl2, hl3, PAGE_LIMIT]
  · intro fetch g q f hq hlt
    have h := fetchAllMembers_chain fetch g [] q f ⟨hq, Nat.ne_of_lt hlt⟩
      (Nat.zero_le f)
    simpa using h

/-- Witness for C5: a concrete collaborator serving pages of sizes 1000,
1000 and 37 keyed by cursor yields 3 calls, the derived cursors, and 2037
members. -/
theorem pagination_counts_witness :
    fetchAllMembers wFetchPages wG 2 =
      .ok ⟨wPage1 ++ wPage2 ++ wPage3, 3, [none, some wU1, some wU2], true⟩
    ∧ (wPage1 ++ wPage2 ++ wPage3).length = 2037 :=
  (pagination_counts).1 wFetchPages wG wPage1 wPage2 wPage3
    (wMem wU1) (wMem wU2) wU1 wU2 0 rfl
    (by rw [wPage1, List.length_append, List.length_replicate]; rfl)
    (by rw [wPage1]; exact getLast?_append_singleton _ _) rfl (by decide)
    rfl (by rw [wPage2, List.length_append, List.length_replicate]; rfl)
    (by rw [wPage2]; exact getLast?_append_singleton _ _) rfl (by decide)
    rfl (by rw [wPage3, List.length_replicate])

theorem pagerGo_restart (fetch : FetchFn) (g : Str) (p : List Member)
    (m : Member) (hp : fetch g none = .ok p) (hl : p.length = PAGE_LIMIT)
    (hg : p.getLast? = some m) (hm : m.user = none) :
    ∀ (fuel : Nat) (acc : List Member) (calls : Nat)
      (curs : List (Option Str)),
      acc.getLast? = p.getLast? →
      (∀ cu ∈ curs, cu = none) →
      ∃ out, pagerGo fetch g fuel acc p calls curs = .ok out ∧
        out.completed = false ∧ ∀ cu ∈ out.cursors, cu = none := by
  intro fuel
  induction fuel with
  | zero =>
    intro acc calls curs hacc hcurs
    exact ⟨⟨acc, calls, curs, false⟩,
      pagerGo_zero fetch g acc p calls curs hl, rfl, hcurs⟩
  | succ f ih =>
    intro acc calls curs hacc hcurs
    have hcur : lastCursor acc = none := by
      unfold lastCursor
      rw [hacc, hg]
      show Option.map User.id m.user = none
      rw [hm]
      rfl
    have hpne : p ≠ [] := by
      intro hnil
      rw [hnil] at hl
      simp [PAGE_LIMIT] at hl
    have hfetch : fetchGuildMembersPage fetch g (lastCursor acc) = .ok p := by
      rw [hcur]
      exact hp
    rw [pagerGo_step_ok fetch g f acc p p calls curs hl hfetch]
    have hacc' : (acc ++ p).getLast? = p.getLast? :=
      List.getLast?_append_of_ne_nil acc hpne
    have hcurs' : ∀ cu ∈ curs ++ [effCursor (lastCursor acc)], cu = none := by
      intro cu hcu
      rcases List.mem_append.1 hcu with h | h
      · exact hcurs cu h
      · rw [List.mem_singleton] at h
        rw [h, hcur]
        rfl
    exact ih (acc ++ p) (calls + 1) (curs ++ [effCursor (lastCursor acc)])
      hacc' hcurs'

/-- C10 (implicit): the pagination loop terminates under the precondition
that the collaborator, following the derived cursors, eventually returns a
page shorter than 1000 and that every full page's last member carries a
non-empty user id — the loop then completes after exactly one call per
page. When instead the first page is full and its last member has no user
id, every fetch is issued with no cursor (pagination restarts from the
beginning each time) and the loop never completes, for any amount of
fuel. -/
theorem pagination_termination_conditional :
    (∀ (fetch : FetchFn) (g : Str) (ps : List (List Member × Str))
        (q : List Member) (fuel : Nat),
      pagerChain fetch g none ps q → ps.length ≤ fuel →
      fetchAllMembers fetch g fuel =
        .ok ⟨(ps.map Prod.fst).flatten ++ q, ps.length + 1,
          none :: ps.map (fun pr => (some pr.2 : Option Str)), true⟩)
    ∧ (∀ (fetch : FetchFn) (g : Str) (p : List Member) (m : Member)
        (fuel : Nat),
      fetch g none = .ok p → p.length = PAGE_LIMIT →
      p.getLast? = some m → m.user = none →
      ∃ out, fetchAllMembers fetch g fuel = .ok out ∧
        out.completed = false ∧ ∀ cu ∈ out.cursors, cu = none) := by
  constructor
  · exact fun fetch g ps q fuel hch hf =>
      fetchAllMembers_chain fetch g ps q fuel hch hf
  · intro fetch g p m fuel hp hl hg hm
    unfold fetchAllMembers
    rw [show fetchGuildMembersPage fetch g none = .ok p from hp]
    show ∃ out, pagerGo fetch g fuel p p 1 [none] = .ok out ∧
      out.completed = false ∧ ∀ cu ∈ out.cursors, cu = none
    exact pagerGo_restart fetch g p m hp hl hg hm fuel p 1 [none] rfl
      (by intro cu hcu; rw [List.mem_singleton] at hcu; exact hcu)

/-- Witness for C10: a short first page completes in one call; a full page
of user-less members makes the pager refetch with no cursor forever and
never complete. -/
theorem pagination_termination_conditional_witness :
    fetchAllMembers wFetchOne wG 0 = .ok ⟨[wMem wU1], 1, [none], true⟩
    ∧ ∃ out, fetchAllMembers wFetchLoop wG 1 = .ok out ∧
        out.completed = false ∧ ∀ cu ∈ out.cursors, cu = none := by
  constructor
  · have h := (pagination_termination_conditional).1 wFetchOne wG []
      [wMem wU1] 0 ⟨rfl, by decide⟩ (Nat.le_refl 0)
    simpa using h
  · exact (pagination_termination_conditional).2 wFetchLoop wG wPageNoUser
      wMemNoUser 1 rfl (by rw [wPageNoUser, List.length_replicate]; rfl)
      (by rw [wPageNoUser]; exact getLast?_replicate_succ 999 wMemNoUser) rfl

end RoleBot
